import Mathlib

/-!
Shallow embedding of the AQI engine of the repository:
`src/aqi_engine/standard_aqi.py`, `src/aqi_engine/nowcast_aqi.py`,
`src/aqi_engine/compare.py`, `src/forecasting/forecast_3days.py` and the
forecast-series assembly in `app.py`.

Python floats are modelled by `ℚ`, Python ints by `ℤ`.  A Python function
that may raise is modelled with `Except String`, the string naming the
exception; a Python function that may return `None` wraps its result in
`Option`.
-/

/-- Python's built-in `round`: round half to even (banker's rounding). -/
def pyRound (x : ℚ) : ℤ :=
  if x - ⌊x⌋ < 1/2 then ⌊x⌋
  else if 1/2 < x - ⌊x⌋ then ⌊x⌋ + 1
  else if ⌊x⌋ % 2 = 0 then ⌊x⌋ else ⌊x⌋ + 1

/-- One breakpoint tuple `(bplo, bphi, ilo, ihi)` of the EPA table in
`calculate_standard_aqi` (`standard_aqi.py`, lines 12-37). -/
structure Bp where
  bplo : ℚ
  bphi : ℚ
  ilo  : ℤ
  ihi  : ℤ
deriving DecidableEq

/-- `breakpoints["pm25"]` (`standard_aqi.py`, lines 13-20). -/
def pm25_breakpoints : List Bp :=
  [⟨0, 12, 0, 50⟩,
   ⟨121/10, 354/10, 51, 100⟩,
   ⟨355/10, 554/10, 101, 150⟩,
   ⟨555/10, 1504/10, 151, 200⟩,
   ⟨1505/10, 2504/10, 201, 300⟩,
   ⟨2505/10, 5004/10, 301, 500⟩]

/-- `breakpoints["pm10"]` (`standard_aqi.py`, lines 21-28). -/
def pm10_breakpoints : List Bp :=
  [⟨0, 54, 0, 50⟩,
   ⟨55, 154, 51, 100⟩,
   ⟨155, 254, 101, 150⟩,
   ⟨255, 354, 151, 200⟩,
   ⟨355, 424, 201, 300⟩,
   ⟨425, 604, 301, 500⟩]

/-- `breakpoints["o3"]` (`standard_aqi.py`, lines 29-35). -/
def o3_breakpoints : List Bp :=
  [⟨0, 54/1000, 0, 50⟩,
   ⟨55/1000, 70/1000, 51, 100⟩,
   ⟨71/1000, 85/1000, 101, 150⟩,
   ⟨86/1000, 105/1000, 151, 200⟩,
   ⟨106/1000, 200/1000, 201, 300⟩]

/-- The `breakpoints` dict lookup of `calculate_standard_aqi`
(`standard_aqi.py`, lines 12-40): `none` models the key being absent. -/
def breakpointsFor (pollutant : String) : Option (List Bp) :=
  if pollutant = "pm25" then some pm25_breakpoints
  else if pollutant = "pm10" then some pm10_breakpoints
  else if pollutant = "o3" then some o3_breakpoints
  else none

/-- The linear interpolation of `standard_aqi.py`, line 44:
`((ihi - ilo) / (bphi - bplo)) * (concentration - bplo) + ilo`. -/
def interp (t : Bp) (c : ℚ) : ℚ :=
  (((t.ihi : ℚ) - t.ilo) / (t.bphi - t.bplo)) * (c - t.bplo) + t.ilo

/-- The breakpoint loop of `calculate_standard_aqi`
(`standard_aqi.py`, lines 42-46): the first tuple with
`bplo <= concentration <= bphi` is interpolated and rounded; if no tuple
matches, `500` is returned. -/
def aqiFromTable : List Bp → ℚ → ℤ
  | [], _ => 500
  | t :: rest, c =>
      if t.bplo ≤ c ∧ c ≤ t.bphi then pyRound (interp t c)
      else aqiFromTable rest c

/-- `calculate_standard_aqi` (`standard_aqi.py`, lines 3-46).
`Except.error` models the `ValueError` raised for an unknown pollutant. -/
def calculate_standard_aqi (concentration : ℚ) (pollutant : String) :
    Except String ℤ :=
  match breakpointsFor pollutant with
  | none => .error "ValueError: no breakpoints defined"
  | some bps => .ok (aqiFromTable bps concentration)

/-- Well-formedness of a single breakpoint tuple: non-degenerate
concentration range, non-decreasing index range, index ceiling 500. -/
def bpOK (t : Bp) : Prop := t.bplo < t.bphi ∧ t.ilo ≤ t.ihi ∧ t.ihi ≤ 500

/-- Well-formedness of a breakpoint table: every tuple is `bpOK` and the
tuples are strictly ordered (later tuples have strictly larger
concentration ranges and no smaller index ranges). -/
def tableWF (bps : List Bp) : Prop :=
  (∀ t ∈ bps, bpOK t) ∧
    List.Pairwise (fun t t' => t.bphi < t'.bplo ∧ t.ihi ≤ t'.ilo) bps

/-- `c` lies inside some tuple of the table. -/
def coveredBy (bps : List Bp) (c : ℚ) : Prop :=
  ∃ t ∈ bps, t.bplo ≤ c ∧ c ≤ t.bphi

/-- `c` lies above every tuple of the table. -/
def aboveAll (bps : List Bp) (c : ℚ) : Prop := ∀ t ∈ bps, t.bphi < c

/-- `c` is not in a gap of the table: it is either inside a tuple or above
the whole table. -/
def inDomain (bps : List Bp) (c : ℚ) : Prop := coveredBy bps c ∨ aboveAll bps c

lemma pm25_breakpoints_WF : tableWF pm25_breakpoints := by
  constructor
  · intro t ht
    simp only [pm25_breakpoints, List.mem_cons, List.not_mem_nil, or_false] at ht
    rcases ht with h | h | h | h | h | h <;> subst h <;>
      exact ⟨by norm_num, by norm_num, by norm_num⟩
  · simp only [pm25_breakpoints, List.pairwise_cons, List.mem_cons,
      List.not_mem_nil, or_false, List.Pairwise.nil]
    norm_num

lemma pm10_breakpoints_WF : tableWF pm10_breakpoints := by
  constructor
  · intro t ht
    simp only [pm10_breakpoints, List.mem_cons, List.not_mem_nil, or_false] at ht
    rcases ht with h | h | h | h | h | h <;> subst h <;>
      exact ⟨by norm_num, by norm_num, by norm_num⟩
  · simp only [pm10_breakpoints, List.pairwise_cons, List.mem_cons,
      List.not_mem_nil, or_false, List.Pairwise.nil]
    norm_num

lemma o3_breakpoints_WF : tableWF o3_breakpoints := by
  constructor
  · intro t ht
    simp only [o3_breakpoints, List.mem_cons, List.not_mem_nil, or_false] at ht
    rcases ht with h | h | h | h | h <;> subst h <;>
      exact ⟨by norm_num, by norm_num, by norm_num⟩
  · simp only [o3_breakpoints, List.pairwise_cons, List.mem_cons,
      List.not_mem_nil, or_false, List.Pairwise.nil]
    norm_num

lemma breakpointsFor_WF (p : String) (bps : List Bp)
    (h : breakpointsFor p = some bps) : tableWF bps := by
  unfold breakpointsFor at h
  split_ifs at h <;> simp only [Option.some.injEq] at h <;> subst h
  · exact pm25_breakpoints_WF
  · exact pm10_breakpoints_WF
  · exact o3_breakpoints_WF

/-! ### Properties of `pyRound` -/

lemma pyRound_intCast (n : ℤ) : pyRound (n : ℚ) = n := by
  unfold pyRound
  norm_num

lemma pyRound_bounds (x : ℚ) : ⌊x⌋ ≤ pyRound x ∧ pyRound x ≤ ⌊x⌋ + 1 := by
  unfold pyRound
  split_ifs <;> omega

lemma pyRound_mono {x y : ℚ} (h : x ≤ y) : pyRound x ≤ pyRound y := by
  rcases lt_or_eq_of_le (Int.floor_le_floor h) with hf | hf
  · calc pyRound x ≤ ⌊x⌋ + 1 := (pyRound_bounds x).2
      _ ≤ ⌊y⌋ := by omega
      _ ≤ pyRound y := (pyRound_bounds y).1
  · have hx : x - ⌊x⌋ ≤ y - ⌊y⌋ := by
      rw [← hf]; exact sub_le_sub_right h _
    unfold pyRound
    rw [← hf]
    split_ifs <;> first | omega | linarith

/-! ### Properties of the interpolation on one tuple -/

lemma interp_mono (t : Bp) (ht : bpOK t) {c c' : ℚ} (h : c ≤ c') :
    interp t c ≤ interp t c' := by
  unfold interp
  have hslope : (0:ℚ) ≤ ((t.ihi : ℚ) - t.ilo) / (t.bphi - t.bplo) :=
    div_nonneg (by exact_mod_cast sub_nonneg.2 ht.2.1) (sub_nonneg.2 ht.1.le)
  have := mul_le_mul_of_nonneg_left (sub_le_sub_right h t.bplo) hslope
  linarith

lemma interp_bplo (t : Bp) : interp t t.bplo = t.ilo := by
  unfold interp; ring

lemma interp_bphi (t : Bp) (ht : bpOK t) : interp t t.bphi = t.ihi := by
  unfold interp
  rw [div_mul_cancel₀]
  · ring
  · exact sub_ne_zero.2 (ne_of_gt ht.1)

lemma pyRound_interp_ge (t : Bp) (ht : bpOK t) {c : ℚ} (h : t.bplo ≤ c) :
    t.ilo ≤ pyRound (interp t c) := by
  have := pyRound_mono (interp_mono t ht h)
  rwa [interp_bplo, pyRound_intCast] at this

lemma pyRound_interp_le (t : Bp) (ht : bpOK t) {c : ℚ} (h : c ≤ t.bphi) :
    pyRound (interp t c) ≤ t.ihi := by
  have := pyRound_mono (interp_mono t ht h)
  rwa [interp_bphi t ht, pyRound_intCast] at this

/-! ### Bounds and monotonicity of the table lookup -/

lemma aqiFromTable_ge (bps : List Bp) (hok : ∀ t ∈ bps, bpOK t) (m : ℤ)
    (hm : ∀ t ∈ bps, m ≤ t.ilo) (h500 : m ≤ 500) (c : ℚ) :
    m ≤ aqiFromTable bps c := by
  induction bps with
  | nil => simpa [aqiFromTable] using h500
  | cons t rest ih =>
      simp only [aqiFromTable]
      split_ifs with hc
      · exact le_trans (hm t (.head _)) (pyRound_interp_ge t (hok t (.head _)) hc.1)
      · exact ih (fun u hu => hok u (.tail _ hu)) (fun u hu => hm u (.tail _ hu))

lemma aqiFromTable_le_500 (bps : List Bp) (hok : ∀ t ∈ bps, bpOK t) (c : ℚ) :
    aqiFromTable bps c ≤ 500 := by
  induction bps with
  | nil => simp [aqiFromTable]
  | cons t rest ih =>
      simp only [aqiFromTable]
      split_ifs with hc
      · exact le_trans (pyRound_interp_le t (hok t (.head _)) hc.2)
          (hok t (.head _)).2.2
      · exact ih (fun u hu => hok u (.tail _ hu))

lemma aqiFromTable_mono (bps : List Bp) (hwf : tableWF bps) {a b : ℚ}
    (hab : a ≤ b) (ha : inDomain bps a) (hb : inDomain bps b) :
    aqiFromTable bps a ≤ aqiFromTable bps b := by
  induction bps with
  | nil => simp [aqiFromTable]
  | cons t rest ih =>
      obtain ⟨hok, hpw⟩ := hwf
      rw [List.pairwise_cons] at hpw
      have htOK : bpOK t := hok t (.head _)
      by_cases hma : t.bplo ≤ a ∧ a ≤ t.bphi
      · by_cases hmb : t.bplo ≤ b ∧ b ≤ t.bphi
        · simp only [aqiFromTable, if_pos hma, if_pos hmb]
          exact pyRound_mono (interp_mono t htOK hab)
        · have hbhi : t.bphi < b := by
            rcases not_and_or.1 hmb with h | h
            · exact absurd (le_trans hma.1 hab) h
            · exact lt_of_not_le h
          simp only [aqiFromTable, if_pos hma,
            if_neg (fun h : t.bplo ≤ b ∧ b ≤ t.bphi => absurd h.2 (not_le.2 hbhi))]
          refine le_trans (pyRound_interp_le t htOK hma.2) ?_
          exact aqiFromTable_ge rest (fun u hu => hok u (.tail _ hu)) t.ihi
            (fun u hu => (hpw.1 u hu).2) htOK.2.2 b
      · rcases not_and_or.1 hma with h | h
        · -- `a < t.bplo`: contradicts `inDomain` of the whole table
          have halo : a < t.bplo := lt_of_not_le h
          exfalso
          rcases ha with ⟨u, hu, hua, _⟩ | habove
          · rcases List.mem_cons.mp hu with rfl | hu
            · exact h hua
            · exact absurd hua (not_le.2 (lt_trans (lt_trans halo htOK.1)
                (hpw.1 u hu).1))
          · exact absurd (habove t (.head _)) (not_lt.2 (le_of_lt (lt_trans halo htOK.1)))
        · -- `t.bphi < a ≤ b`: both fall through to the rest of the table
          have hahi : t.bphi < a := lt_of_not_le h
          have hbhi : t.bphi < b := lt_of_lt_of_le hahi hab
          have ha' : inDomain rest a := by
            rcases ha with ⟨u, hu, hua, hua'⟩ | habove
            · rcases List.mem_cons.mp hu with rfl | hu
              · exact absurd hua' (not_le.2 hahi)
              · exact Or.inl ⟨u, hu, hua, hua'⟩
            · exact Or.inr (fun u hu => habove u (.tail _ hu))
          have hb' : inDomain rest b := by
            rcases hb with ⟨u, hu, hub, hub'⟩ | habove
            · rcases List.mem_cons.mp hu with rfl | hu
              · exact absurd hub' (not_le.2 hbhi)
              · exact Or.inl ⟨u, hu, hub, hub'⟩
            · exact Or.inr (fun u hu => habove u (.tail _ hu))
          simp only [aqiFromTable, if_neg hma,
            if_neg (fun hc : t.bplo ≤ b ∧ b ≤ t.bphi => absurd hc.2 (not_le.2 hbhi))]
          exact ih ⟨fun u hu => hok u (.tail _ hu), hpw.2⟩ ha' hb'

lemma aqiFromTable_of_noMatch (bps : List Bp) (c : ℚ)
    (h : ∀ t ∈ bps, ¬(t.bplo ≤ c ∧ c ≤ t.bphi)) :
    aqiFromTable bps c = 500 := by
  induction bps with
  | nil => simp [aqiFromTable]
  | cons t rest ih =>
      simp only [aqiFromTable, if_neg (h t (.head _))]
      exact ih (fun u hu => h u (.tail _ hu))


lemma gap_noMatch (bps : List Bp) (hwf : tableWF bps) (i : ℕ)
    (hi : i + 1 < bps.length) (c : ℚ)
    (h1 : (bps.getD i ⟨0, 0, 0, 0⟩).bphi < c)
    (h2 : c < (bps.getD (i + 1) ⟨0, 0, 0, 0⟩).bplo) :
    ∀ t ∈ bps, ¬(t.bplo ≤ c ∧ c ≤ t.bphi) := by
  have hi' : i < bps.length := Nat.lt_of_succ_lt hi
  rw [List.getD_eq_get _ _ hi'] at h1
  rw [List.getD_eq_get _ _ hi] at h2
  have hpw := hwf.2
  rw [List.pairwise_iff_get] at hpw
  have hokI : bpOK (bps.get ⟨i, hi'⟩) := hwf.1 _ (bps.get_mem _ _)
  have hokI1 : bpOK (bps.get ⟨i + 1, hi⟩) := hwf.1 _ (bps.get_mem _ _)
  intro t ht hmatch
  obtain ⟨j, hj⟩ := List.mem_iff_get.mp ht
  rcases Nat.lt_trichotomy j.val i with hji | hji | hji
  · have := (hpw j ⟨i, hi'⟩ hji).1
    rw [hj] at this
    exact absurd hmatch.2 (not_le.2 (lt_trans (lt_trans this hokI.1) h1))
  · have : bps.get j = bps.get ⟨i, hi'⟩ := by
      congr 1; exact Fin.ext hji
    rw [hj] at this; subst this
    exact absurd hmatch.2 (not_le.2 h1)
  · rcases Nat.lt_or_ge j.val (i + 2) with hj2 | hj2
    · have : bps.get j = bps.get ⟨i + 1, hi⟩ := by
        congr 1; exact Fin.ext (by simp only [Fin.val_mk]; omega)
      rw [hj] at this; subst this
      exact absurd hmatch.1 (not_le.2 h2)
    · have := (hpw ⟨i + 1, hi⟩ j
        (by rw [Fin.lt_def]; simp only [Fin.val_mk]; omega)).1
      rw [hj] at this
      exact absurd hmatch.1 (not_le.2 (lt_trans (lt_trans h2 hokI1.1) this))

/-- **C10**: for every supported pollutant kind, a concentration lying
strictly between one breakpoint tuple's upper concentration bound and the
next tuple's lower bound matches no tuple, so `calculate_standard_aqi`
falls through and returns `500`; no table-contiguity validation is
performed and no error is raised. -/
theorem C10_gap_concentration_returns_500 (p : String) (bps : List Bp)
    (hp : breakpointsFor p = some bps) (i : ℕ) (c : ℚ)
    (hi : i + 1 < bps.length)
    (h1 : (bps.getD i ⟨0, 0, 0, 0⟩).bphi < c)
    (h2 : c < (bps.getD (i + 1) ⟨0, 0, 0, 0⟩).bplo) :
    calculate_standard_aqi c p = .ok 500 := by
  unfold calculate_standard_aqi
  rw [hp]
  exact congrArg Except.ok
    (aqiFromTable_of_noMatch bps c
      (gap_noMatch bps (breakpointsFor_WF p bps hp) i hi c h1 h2))

/-- Witness for C10: the pm25 gap concentration `12.05` (strictly between
the first tuple's `12.0` and the second tuple's `12.1`) yields index 500. -/
theorem C10_witness :
    calculate_standard_aqi (1205/100) "pm25" = .ok 500 :=
  C10_gap_concentration_returns_500 "pm25" pm25_breakpoints
    (by simp [breakpointsFor]) 0 (1205/100)
    (by simp [pm25_breakpoints])
    (by simp [pm25_breakpoints]; norm_num)
    (by simp [pm25_breakpoints]; norm_num)

/-- **C1 counterexample**: monotonicity fails as stated.  The pm25 gap
concentration `a = 12.05` satisfies `0 ≤ a ≤ b = 12.1`, yet the index of
`a` is `500` (fall-through) while the index of `b` is `51`. -/
theorem C1_counterexample :
    (0 : ℚ) ≤ 1205/100 ∧ (1205/100 : ℚ) ≤ 121/10 ∧
    calculate_standard_aqi (1205/100) "pm25" = .ok 500 ∧
    calculate_standard_aqi (121/10) "pm25" = .ok 51 ∧
    ¬((500 : ℤ) ≤ 51) := by
  refine ⟨by norm_num, by norm_num, ?_, ?_, by norm_num⟩ <;>
    norm_num [calculate_standard_aqi, breakpointsFor, pm25_breakpoints,
      aqiFromTable, interp, pyRound]

/-- **C1 (amended)**: for every supported pollutant kind,
`calculate_standard_aqi` is monotonically non-decreasing in the
concentration argument on concentrations that are not strictly inside a
gap of the breakpoint table (each lies inside some tuple or above the
whole table). -/
theorem C1_monotone_on_table_domain (p : String) (bps : List Bp)
    (hp : breakpointsFor p = some bps) (a b : ℚ) (h0 : 0 ≤ a) (hab : a ≤ b)
    (ha : inDomain bps a) (hb : inDomain bps b) {ia ib : ℤ}
    (hia : calculate_standard_aqi a p = .ok ia)
    (hib : calculate_standard_aqi b p = .ok ib) : ia ≤ ib := by
  unfold calculate_standard_aqi at hia hib
  rw [hp] at hia hib
  simp only [Except.ok.injEq] at hia hib
  subst hia hib
  exact aqiFromTable_mono bps (breakpointsFor_WF p bps hp) hab ha hb

/-- Witness for C1: concentrations 1 and 2 are both inside the first pm25
tuple and their indices are 4 and 8. -/
theorem C1_witness : (4 : ℤ) ≤ 8 :=
  C1_monotone_on_table_domain "pm25" pm25_breakpoints
    (by simp [breakpointsFor]) 1 2 (by norm_num) (by norm_num)
    (Or.inl ⟨⟨0, 12, 0, 50⟩, by simp [pm25_breakpoints], by norm_num, by norm_num⟩)
    (Or.inl ⟨⟨0, 12, 0, 50⟩, by simp [pm25_breakpoints], by norm_num, by norm_num⟩)
    (by norm_num [calculate_standard_aqi, breakpointsFor, pm25_breakpoints,
      aqiFromTable, interp, pyRound])
    (by norm_num [calculate_standard_aqi, breakpointsFor, pm25_breakpoints,
      aqiFromTable, interp, pyRound])

/-- **C6**: for pm25, concentration exactly 12.0 yields index 50 and
concentration 12.1 yields index 51; adjacent pm25 breakpoint tuples do not
overlap (each tuple's upper bound is strictly below the next tuple's lower
bound). -/
theorem C6_pm25_boundary :
    calculate_standard_aqi 12 "pm25" = .ok 50 ∧
    calculate_standard_aqi (121/10) "pm25" = .ok 51 ∧
    List.Chain' (fun t t' => t.bphi < t'.bplo) pm25_breakpoints := by
  refine ⟨?_, ?_, ?_⟩
  · norm_num [calculate_standard_aqi, breakpointsFor, pm25_breakpoints,
      aqiFromTable, interp, pyRound]
  · norm_num [calculate_standard_aqi, breakpointsFor, pm25_breakpoints,
      aqiFromTable, interp, pyRound]
  · simp only [pm25_breakpoints, List.chain'_cons, List.chain'_singleton,
      and_true]
    norm_num

/-- **C7**: for every supported pollutant kind, a concentration above
every breakpoint tuple's range yields the ceiling index 500 and no
exception is raised. -/
theorem C7_saturation (p : String) (bps : List Bp)
    (hp : breakpointsFor p = some bps) (c : ℚ)
    (hc : ∀ t ∈ bps, t.bphi < c) : calculate_standard_aqi c p = .ok 500 := by
  unfold calculate_standard_aqi
  rw [hp]
  exact congrArg Except.ok
    (aqiFromTable_of_noMatch bps c
      (fun t ht h => absurd h.2 (not_le.2 (hc t ht))))

/-- Witness for C7: pm25 concentration 1000 lies above the whole pm25
table and yields index 500. -/
theorem C7_witness : calculate_standard_aqi 1000 "pm25" = .ok 500 :=
  C7_saturation "pm25" pm25_breakpoints (by simp [breakpointsFor]) 1000
    (by intro t ht
        simp only [pm25_breakpoints, List.mem_cons, List.not_mem_nil,
          or_false] at ht
        rcases ht with h | h | h | h | h | h <;> subst h <;> norm_num)

/-! ### NowCast (`nowcast_aqi.py`) -/

/-- The generator sum `sum(w**t * c for t, c in enumerate(xs))`
(`nowcast_aqi.py`, line 27), starting `enumerate` at `t`. -/
def wsum (w : ℚ) : ℕ → List ℚ → ℚ
  | _, [] => 0
  | t, c :: rest => w ^ t * c + wsum w (t + 1) rest

/-- The sum `sum(w**t for t in range(n))` (`nowcast_aqi.py`, line 28),
starting at exponent `t` and taking `n` terms. -/
def powsum (w : ℚ) : ℕ → ℕ → ℚ
  | _, 0 => 0
  | t, n + 1 => w ^ t + powsum w (t + 1) n

/-- The weight factor `w` of `calculate_nowcast` (`nowcast_aqi.py`, lines
15-24) for the non-empty window `h :: tl`: `min`/`max` of the window,
`scaled_rate = (c_max - c_min) / c_max` when `c_max > 0`, and
`w = max(0.5, min(1.0, 1 - scaled_rate))`, else `w = 1.0`. -/
def nowcast_w (h : ℚ) (tl : List ℚ) : ℚ :=
  if 0 < tl.foldl max h then
    max (1/2) (min 1 (1 - (tl.foldl max h - tl.foldl min h) / tl.foldl max h))
  else 1

/-- The NowCast concentration `numerator / denominator`
(`nowcast_aqi.py`, lines 26-29) for the non-empty window `h :: tl`;
`reversed(pm_last_12h)` makes `t = 0` the most recent sample. -/
def nowcast_concentration (h : ℚ) (tl : List ℚ) : ℚ :=
  wsum (nowcast_w h tl) 0 (h :: tl).reverse /
    powsum (nowcast_w h tl) 0 (h :: tl).length

/-- `calculate_nowcast` (`nowcast_aqi.py`, lines 4-32).  The empty window
returns Python `None`, modelled `.ok none`; otherwise the smoothed
concentration is converted through `calculate_standard_aqi`. -/
def calculate_nowcast (pm_last_12h : List ℚ) (pollutant : String) :
    Except String (Option ℤ) :=
  match pm_last_12h with
  | [] => .ok none
  | h :: tl =>
      (calculate_standard_aqi (nowcast_concentration h tl) pollutant).map some

/-- **C2 counterexample**: on the empty window `calculate_nowcast` does
not fail; it returns the sentinel `None` (modelled `.ok none`) in place of
an index. -/
theorem C2_counterexample : calculate_nowcast [] "pm25" = .ok none := rfl

/-- **C2 (amended)**: `calculate_nowcast` applied to an empty observation
window returns the sentinel `None` instead of an index, for every
pollutant argument; no error is raised. -/
theorem C2_empty_window_returns_none (p : String) :
    calculate_nowcast [] p = .ok none := rfl

lemma breakpointsFor_pm25 : breakpointsFor "pm25" = some pm25_breakpoints := rfl

lemma breakpointsFor_pm10 : breakpointsFor "pm10" = some pm10_breakpoints := rfl

lemma breakpointsFor_o3 : breakpointsFor "o3" = some o3_breakpoints := rfl

/-! Helper lemmas for constant windows. -/

lemma foldl_idem_of_const {f : ℚ → ℚ → ℚ} {c : ℚ} (hf : f c c = c) :
    ∀ tl : List ℚ, (∀ x ∈ tl, x = c) → tl.foldl f c = c := by
  intro tl
  induction tl with
  | nil => intro _; rfl
  | cons x tl ih =>
      intro hconst
      have hx : x = c := hconst x (.head _)
      subst hx
      rw [List.foldl_cons, hf]
      exact ih (fun y hy => hconst y (.tail _ hy))

lemma wsum_const (w c : ℚ) :
    ∀ (l : List ℚ) (t : ℕ), (∀ x ∈ l, x = c) →
      wsum w t l = c * powsum w t l.length := by
  intro l
  induction l with
  | nil => intro t _; simp [wsum, powsum]
  | cons x l ih =>
      intro t hconst
      have hx : x = c := hconst x (.head _)
      subst hx
      rw [wsum, List.length_cons, powsum,
        ih (t + 1) (fun y hy => hconst y (.tail _ hy))]
      ring

lemma powsum_nonneg {w : ℚ} (hw : 0 ≤ w) : ∀ (t n : ℕ), 0 ≤ powsum w t n := by
  intro t n
  induction n generalizing t with
  | zero => simp [powsum]
  | succ n ih => exact add_nonneg (pow_nonneg hw t) (ih (t + 1))

lemma powsum_pos {w : ℚ} (hw : 0 < w) (t : ℕ) {n : ℕ} (hn : 0 < n) :
    0 < powsum w t n := by
  obtain ⟨m, rfl⟩ := Nat.exists_eq_succ_of_ne_zero hn.ne'
  exact add_pos_of_pos_of_nonneg (pow_pos hw t) (powsum_nonneg hw.le (t + 1) m)

/-- **C8**: on a non-empty constant window with value `c ≥ 0` the NowCast
weight is exactly `1`, the smoothed concentration is exactly `c`, and the
returned index is `calculate_standard_aqi` of `c`; the all-zero window
yields index 0 for every supported pollutant kind with no
division-by-zero failure. -/
theorem C8_constant_window (c : ℚ) (h0 : 0 ≤ c) (tl : List ℚ)
    (hconst : ∀ x ∈ tl, x = c) :
    nowcast_w c tl = 1 ∧
    nowcast_concentration c tl = c ∧
    (∀ p, calculate_nowcast (c :: tl) p =
      (calculate_standard_aqi c p).map some) ∧
    (c = 0 → calculate_nowcast (c :: tl) "pm25" = .ok (some 0) ∧
      calculate_nowcast (c :: tl) "pm10" = .ok (some 0) ∧
      calculate_nowcast (c :: tl) "o3" = .ok (some 0)) := by
  have hmin : tl.foldl min c = c := foldl_idem_of_const (min_self c) tl hconst
  have hmax : tl.foldl max c = c := foldl_idem_of_const (max_self c) tl hconst
  have hw : nowcast_w c tl = 1 := by
    unfold nowcast_w
    rw [hmin, hmax]
    split_ifs with hc
    · norm_num
    · rfl
  have hrevconst : ∀ x ∈ (c :: tl).reverse, x = c := by
    intro x hx
    rcases List.mem_cons.mp (List.mem_reverse.mp hx) with rfl | hx'
    · rfl
    · exact hconst x hx'
  have hconc : nowcast_concentration c tl = c := by
    unfold nowcast_concentration
    rw [hw, wsum_const 1 c _ 0 hrevconst, List.length_reverse]
    have hpos : 0 < powsum 1 0 (c :: tl).length :=
      powsum_pos one_pos 0 (by simp)
    rw [mul_div_assoc, div_self hpos.ne', mul_one]
  refine ⟨hw, hconc, fun p => ?_, fun hc => ?_⟩
  · simp only [calculate_nowcast]
    rw [hconc]
  · subst hc
    refine ⟨?_, ?_, ?_⟩ <;>
      · simp only [calculate_nowcast]
        rw [hconc]
        norm_num [calculate_standard_aqi, breakpointsFor_pm25,
          breakpointsFor_pm10, breakpointsFor_o3, pm25_breakpoints,
          pm10_breakpoints, o3_breakpoints, aqiFromTable, interp, pyRound,
          Except.map]

/-- Witness for C8: the all-zero window `[0, 0, 0]`. -/
theorem C8_witness :
    nowcast_w 0 [0, 0] = 1 ∧
    nowcast_concentration 0 [0, 0] = 0 ∧
    (∀ p, calculate_nowcast [0, 0, 0] p =
      (calculate_standard_aqi 0 p).map some) ∧
    ((0 : ℚ) = 0 → calculate_nowcast [0, 0, 0] "pm25" = .ok (some 0) ∧
      calculate_nowcast [0, 0, 0] "pm10" = .ok (some 0) ∧
      calculate_nowcast [0, 0, 0] "o3" = .ok (some 0)) :=
  C8_constant_window 0 le_rfl [0, 0] (by simp)

/-! ### Comparator (`compare.py`) -/

/-- The body of `compare_aqi` after the daily average has been resolved
(`compare.py`, lines 17-23): compute the standard index and the NowCast
index and return both. -/
def compare_aqi_body (pm_last_12h : List ℚ) (pm_24h_avg : ℚ)
    (pollutant : String) : Except String (ℤ × Option ℤ) :=
  match calculate_standard_aqi pm_24h_avg pollutant with
  | .error e => .error e
  | .ok standard =>
      match calculate_nowcast pm_last_12h pollutant with
      | .error e => .error e
      | .ok nowcast => .ok (standard, nowcast)

/-- `compare_aqi` (`compare.py`, lines 5-23).  When `pm_24h_avg` is
`None` it defaults to `sum(pm_last_12h)/len(pm_last_12h)` (a
`ZeroDivisionError` on the empty list).  The result dict
`{standard_aqi, nowcast_aqi}` is modelled as a pair. -/
def compare_aqi (pm_last_12h : List ℚ) (pm_24h_avg : Option ℚ)
    (pollutant : String) : Except String (ℤ × Option ℤ) :=
  match pm_24h_avg with
  | some a => compare_aqi_body pm_last_12h a pollutant
  | none =>
      if pm_last_12h.length = 0 then .error "ZeroDivisionError"
      else
        compare_aqi_body pm_last_12h
          (pm_last_12h.sum / pm_last_12h.length) pollutant

/-- **C9**: for every non-empty window and every pollutant argument,
`compare_aqi` with the daily-average argument omitted returns the same
result as `compare_aqi` called explicitly with the arithmetic mean of the
window. -/
theorem C9_default_average (pm : List ℚ) (p : String) (hne : pm ≠ []) :
    compare_aqi pm none p = compare_aqi pm (some (pm.sum / pm.length)) p := by
  simp only [compare_aqi]
  rw [if_neg (fun h => hne (List.length_eq_zero.mp h))]

/-- Witness for C9: the window `[1, 2, 3]` with pollutant pm25. -/
theorem C9_witness :
    compare_aqi [1, 2, 3] none "pm25" =
      compare_aqi [1, 2, 3]
        (some (List.sum [1, 2, 3] / (List.length [(1 : ℚ), 2, 3]))) "pm25" :=
  C9_default_average [1, 2, 3] "pm25" (by simp)

/-! ### Forecast engine (`forecast_3days.py` and `app.py`) -/

/-- The feature row the forecast loop operates on (the single-row
DataFrame `current` of `forecast_3_days`): the columns the loop reads or
writes, plus the columns it drops before prediction (`timestamp`,
`location`, `pm25_next_hour`).  The timestamp is an hour counter; calendar
fields are recomputed from it through a `Calendar` (below). -/
structure FeatureState where
  timestamp : ℤ
  location : String
  pm25_next_hour : ℚ
  pm25 : ℚ
  pm25_lag_1h : ℚ
  pm25_lag_3h : ℚ
  pm25_lag_6h : ℚ
  hour : ℤ
  day : ℤ
  month : ℤ
  day_of_week : ℤ
  is_weekend : ℤ
  is_rush_hour : ℤ

/-- The model input `X = current.drop(columns=["timestamp", "location",
"pm25_next_hour"])` (`forecast_3days.py`, line 60). -/
structure ModelInput where
  pm25 : ℚ
  pm25_lag_1h : ℚ
  pm25_lag_3h : ℚ
  pm25_lag_6h : ℚ
  hour : ℤ
  day : ℤ
  month : ℤ
  day_of_week : ℤ
  is_weekend : ℤ
  is_rush_hour : ℤ

/-- Column dropping (`forecast_3days.py`, line 60). -/
def dropCols (s : FeatureState) : ModelInput :=
  { pm25 := s.pm25, pm25_lag_1h := s.pm25_lag_1h,
    pm25_lag_3h := s.pm25_lag_3h, pm25_lag_6h := s.pm25_lag_6h,
    hour := s.hour, day := s.day, month := s.month,
    day_of_week := s.day_of_week, is_weekend := s.is_weekend,
    is_rush_hour := s.is_rush_hour }

/-- The calendar functions of pandas timestamps (`next_time.hour`,
`.day`, `.month`, `.dayofweek`), abstract over the hour counter. -/
structure Calendar where
  hourOf : ℤ → ℤ
  dayOf : ℤ → ℤ
  monthOf : ℤ → ℤ
  dayofweekOf : ℤ → ℤ

/-- One state update of the forecast loop body after the prediction
(`forecast_3days.py`, lines 64-83): advance time by one hour, shift the
lag features (`lag_3h` into `lag_6h`, `lag_1h` into `lag_3h`, the new
prediction into `lag_1h`), set `pm25` to the prediction, and recompute the
calendar fields (`is_weekend` iff dayofweek >= 5, `is_rush_hour` iff hour
in {7, 8, 9, 17, 18, 19}). -/
def applyStep (cal : Calendar) (current : FeatureState) (pred_pm25 : ℚ) :
    FeatureState :=
  { current with
    pm25_lag_6h := current.pm25_lag_3h
    pm25_lag_3h := current.pm25_lag_1h
    pm25_lag_1h := pred_pm25
    pm25 := pred_pm25
    timestamp := current.timestamp + 1
    hour := cal.hourOf (current.timestamp + 1)
    day := cal.dayOf (current.timestamp + 1)
    month := cal.monthOf (current.timestamp + 1)
    day_of_week := cal.dayofweekOf (current.timestamp + 1)
    is_weekend := if 5 ≤ cal.dayofweekOf (current.timestamp + 1) then 1 else 0
    is_rush_hour :=
      if cal.hourOf (current.timestamp + 1) = 7 ∨
         cal.hourOf (current.timestamp + 1) = 8 ∨
         cal.hourOf (current.timestamp + 1) = 9 ∨
         cal.hourOf (current.timestamp + 1) = 17 ∨
         cal.hourOf (current.timestamp + 1) = 18 ∨
         cal.hourOf (current.timestamp + 1) = 19 then 1 else 0 }

/-- The forecast loop `for step in range(n)` (`forecast_3days.py`, lines
57-85), generalised over the step count: each step predicts from the
dropped-column view of the current state, appends the prediction, and
advances the state.  A model error propagates as-is (the loop has no
exception handling). -/
def forecast_loop (model : ModelInput → Except String ℚ) (cal : Calendar) :
    ℕ → FeatureState → Except String (List ℚ)
  | 0, _ => .ok []
  | n + 1, current =>
      match model (dropCols current) with
      | .error e => .error e
      | .ok pred =>
          match forecast_loop model cal n (applyStep cal current pred) with
          | .error e => .error e
          | .ok rest => .ok (pred :: rest)

/-- `HOURS_AHEAD = 72` (`forecast_3days.py`, line 7). -/
def HOURS_AHEAD : ℕ := 72

/-- `forecast_3_days` (`forecast_3days.py`, lines 53-85) applied to an
already-loaded model and seed feature row: the loop run for
`HOURS_AHEAD` steps. -/
def forecast_3_days (model : ModelInput → Except String ℚ) (cal : Calendar)
    (seed : FeatureState) : Except String (List ℚ) :=
  forecast_loop model cal HOURS_AHEAD seed

/-- The state reached after `k` successful forecast steps (the value of
`current` entering step `k` of the loop). -/
def runState (model : ModelInput → Except String ℚ) (cal : Calendar) :
    ℕ → FeatureState → Except String FeatureState
  | 0, s => .ok s
  | k + 1, s =>
      match model (dropCols s) with
      | .error e => .error e
      | .ok pred => runState model cal k (applyStep cal s pred)

/-- The pm25 conversion `calculate_standard_aqi(x, "pm25")` used on the
prediction column in `app.py`, line 119. -/
def aqi_pm25 (x : ℚ) : ℤ := aqiFromTable pm25_breakpoints x

/-- The forecast series assembled in `app.py`, lines 109-121: timestamps
`latest + (i+1)` hours paired with the AQI of each prediction. -/
def forecast_series (predictions : List ℚ) (latest_ts : ℤ) :
    List (ℤ × ℤ) :=
  List.zip
    ((List.range predictions.length).map (fun i => latest_ts + (i + 1 : ℕ)))
    (predictions.map aqi_pm25)

lemma forecast_loop_length (model : ModelInput → Except String ℚ)
    (cal : Calendar) :
    ∀ (n : ℕ) (seed : FeatureState) (preds : List ℚ),
      forecast_loop model cal n seed = .ok preds → preds.length = n := by
  intro n
  induction n with
  | zero =>
      intro seed preds h
      simp only [forecast_loop, Except.ok.injEq] at h
      subst h; rfl
  | succ n ih =>
      intro seed preds h
      cases hm : model (dropCols seed) with
      | error e => simp [forecast_loop, hm] at h
      | ok pred =>
          cases hrest : forecast_loop model cal n (applyStep cal seed pred) with
          | error e => simp [forecast_loop, hm, hrest] at h
          | ok rest =>
              simp only [forecast_loop, hm, hrest, Except.ok.injEq] at h
              subst h
              simp [ih _ _ hrest]

lemma forecast_loop_const (v : ℚ) (cal : Calendar) :
    ∀ (n : ℕ) (seed : FeatureState),
      forecast_loop (fun _ => .ok v) cal n seed = .ok (List.replicate n v) := by
  intro n
  induction n with
  | zero => intro seed; rfl
  | succ n ih =>
      intro seed
      simp only [forecast_loop, ih (applyStep cal seed v), List.replicate]

lemma forecast_series_cons (p : ℚ) (preds : List ℚ) (ts : ℤ) :
    forecast_series (p :: preds) ts =
      (ts + 1, aqi_pm25 p) :: forecast_series preds (ts + 1) := by
  unfold forecast_series
  rw [List.length_cons, List.range_succ_eq_map, List.map_cons, List.map_map,
    List.map_cons, List.zip_cons_cons]
  congr 2
  apply List.map_congr_left
  intro i _
  simp only [Function.comp_apply]
  push_cast
  ring

lemma forecast_series_getD :
    ∀ (preds : List ℚ) (ts : ℤ) (i : ℕ), i < preds.length →
      (forecast_series preds ts).getD i (0, 0) =
        (ts + (i + 1 : ℕ), aqi_pm25 (preds.getD i 0)) := by
  intro preds
  induction preds with
  | nil => intro ts i hi; simp at hi
  | cons p preds ih =>
      intro ts i hi
      rw [forecast_series_cons]
      cases i with
      | zero => simp
      | succ i =>
          rw [List.getD_cons_succ, List.getD_cons_succ,
            ih (ts + 1) i (by simpa using hi)]
          congr 1
          push_cast; ring

/-- **C3**: a forecast run over the default 72-hour horizon yields exactly
72 predictions, and the series assembled from them has exactly 72 entries;
entry `i` pairs the timestamp `seed + (i+1)` hours with the pm25 AQI
conversion of prediction `i`; a run with horizon 0 yields an empty
prediction list and an empty series. -/
theorem C3_series_shape (model : ModelInput → Except String ℚ)
    (cal : Calendar) (seed : FeatureState) (preds : List ℚ)
    (h : forecast_loop model cal HOURS_AHEAD seed = .ok preds) :
    preds.length = 72 ∧
    (forecast_series preds seed.timestamp).length = 72 ∧
    (∀ i, i < 72 →
      (forecast_series preds seed.timestamp).getD i (0, 0) =
        (seed.timestamp + (i + 1 : ℕ), aqi_pm25 (preds.getD i 0))) ∧
    forecast_loop model cal 0 seed = .ok [] ∧
    forecast_series [] seed.timestamp = [] := by
  have hlen : preds.length = 72 := forecast_loop_length model cal _ _ _ h
  refine ⟨hlen, ?_, ?_, rfl, rfl⟩
  · simp [forecast_series, hlen]
  · intro i hi
    exact forecast_series_getD preds seed.timestamp i (by omega)

/-- A model that always predicts 5 (used by witnesses). -/
def model5 : ModelInput → Except String ℚ := fun _ => .ok 5

/-- A trivial calendar (used by witnesses). -/
def cal0 : Calendar := ⟨fun _ => 0, fun _ => 0, fun _ => 0, fun _ => 0⟩

/-- A concrete seed feature row with lag values 10 / 20 / 30 (used by
witnesses). -/
def seed0 : FeatureState :=
  { timestamp := 100, location := "Karachi", pm25_next_hour := 0,
    pm25 := 10, pm25_lag_1h := 10, pm25_lag_3h := 20, pm25_lag_6h := 30,
    hour := 4, day := 1, month := 1, day_of_week := 2,
    is_weekend := 0, is_rush_hour := 0 }

/-- Witness for C3: the constant model 5 on the concrete seed. -/
theorem C3_witness :
    (List.replicate 72 (5 : ℚ)).length = 72 ∧
    (forecast_series (List.replicate 72 (5 : ℚ)) seed0.timestamp).length
      = 72 ∧
    (forecast_series (List.replicate 72 (5 : ℚ)) seed0.timestamp).getD 0
        (0, 0) =
      (seed0.timestamp + (0 + 1 : ℕ),
        aqi_pm25 ((List.replicate 72 (5 : ℚ)).getD 0 0)) ∧
    forecast_loop model5 cal0 0 seed0 = .ok [] ∧
    forecast_series [] seed0.timestamp = [] := by
  obtain ⟨h1, h2, h3, h4, h5⟩ :=
    C3_series_shape model5 cal0 seed0 (List.replicate 72 (5 : ℚ))
      (forecast_loop_const 5 cal0 HOURS_AHEAD seed0)
  exact ⟨h1, h2, h3 0 (by norm_num), h4, h5⟩

lemma forecast_loop_error_at (model : ModelInput → Except String ℚ)
    (cal : Calendar) :
    ∀ (k n : ℕ) (seed s : FeatureState) (e : String),
      runState model cal k seed = .ok s →
      model (dropCols s) = .error e → k < n →
      forecast_loop model cal n seed = .error e := by
  intro k
  induction k with
  | zero =>
      intro n seed s e hreach herr hk
      simp only [runState, Except.ok.injEq] at hreach
      subst hreach
      obtain ⟨m, rfl⟩ :=
        Nat.exists_eq_succ_of_ne_zero (Nat.pos_iff_ne_zero.mp hk)
      simp [forecast_loop, herr]
  | succ k ih =>
      intro n seed s e hreach herr hk
      cases hm : model (dropCols seed) with
      | error e' => simp [runState, hm] at hreach
      | ok pred =>
          simp only [runState, hm] at hreach
          obtain ⟨m, rfl⟩ :=
            Nat.exists_eq_succ_of_ne_zero (by omega : n ≠ 0)
          simp only [forecast_loop, hm]
          rw [ih m (applyStep cal seed pred) s e hreach herr (by omega)]

/-- A model that fails on every input (used by the C4 theorems). -/
def modelFail : ModelInput → Except String ℚ := fun _ => .error "model raised"

/-- A model that fails exactly when the 1-hour lag equals its own constant
prediction 5, hence succeeds at step 0 on `seed0` and fails at step 1
(used by the C4 counterexample). -/
def modelFailLater : ModelInput → Except String ℚ :=
  fun x => if x.pm25_lag_1h = 5 then .error "model raised" else .ok 5

/-- **C4 counterexample**: the loop has no exception handling, so a model
failure surfaces as the model's own error with no step index attached:
a model failing at step 0 and a model failing at step 1 produce the very
same failure value, which therefore cannot carry the failed step index;
in both cases no partial series is returned. -/
theorem C4_counterexample :
    forecast_3_days modelFail cal0 seed0 = .error "model raised" ∧
    forecast_3_days modelFailLater cal0 seed0 = .error "model raised" ∧
    modelFail (dropCols seed0) = .error "model raised" ∧
    modelFailLater (dropCols seed0) = .ok 5 := by
  have hok : modelFailLater (dropCols seed0) = .ok 5 := by
    norm_num [modelFailLater, dropCols, seed0]
  have herr1 :
      modelFailLater (dropCols (applyStep cal0 seed0 5)) =
        .error "model raised" := by
    norm_num [modelFailLater, dropCols, applyStep, seed0]
  refine ⟨?_, ?_, rfl, hok⟩
  · exact forecast_loop_error_at modelFail cal0 0 HOURS_AHEAD seed0 seed0
      "model raised" rfl rfl (by norm_num [HOURS_AHEAD])
  · refine forecast_loop_error_at modelFailLater cal0 1 HOURS_AHEAD seed0
      (applyStep cal0 seed0 5) "model raised" ?_ herr1
      (by norm_num [HOURS_AHEAD])
    simp only [runState, hok]

/-- **C4 (amended)**: if the model's prediction raises an error `e` at
forecast step `k` (reached after `k` successful steps), `forecast_3_days`
fails with that same raw error `e` — no `ForecastStepFailed` wrapper and
no step index are attached — and no partial prediction series is
returned. -/
theorem C4_error_propagates_unwrapped (model : ModelInput → Except String ℚ)
    (cal : Calendar) (k : ℕ) (seed s : FeatureState) (e : String)
    (hreach : runState model cal k seed = .ok s)
    (herr : model (dropCols s) = .error e) (hk : k < HOURS_AHEAD) :
    forecast_3_days model cal seed = .error e :=
  forecast_loop_error_at model cal k HOURS_AHEAD seed s e hreach herr hk

/-- Witness for C4: the always-failing model fails the whole forecast at
step 0 with its own error. -/
theorem C4_witness : forecast_3_days modelFail cal0 seed0 = .error "model raised" :=
  C4_error_propagates_unwrapped modelFail cal0 0 seed0 seed0 "model raised"
    rfl rfl (by norm_num [HOURS_AHEAD])

/-- **C5**: each forecast step shifts the lag features — `lag_3h` becomes
`lag_6h`, `lag_1h` becomes `lag_3h`, and the new prediction becomes
`lag_1h`; in particular, from seed lags 10 / 20 / 30 and a model that
always predicts 5, one step leads to the state with `lag_1h = 5`,
`lag_3h = 10`, `lag_6h = 20`. -/
theorem C5_lag_propagation :
    (∀ (cal : Calendar) (s : FeatureState) (pred : ℚ),
      (applyStep cal s pred).pm25_lag_6h = s.pm25_lag_3h ∧
      (applyStep cal s pred).pm25_lag_3h = s.pm25_lag_1h ∧
      (applyStep cal s pred).pm25_lag_1h = pred) ∧
    (∀ (model : ModelInput → Except String ℚ) (cal : Calendar)
        (s : FeatureState),
      (∀ x, model x = .ok 5) →
      s.pm25_lag_1h = 10 → s.pm25_lag_3h = 20 → s.pm25_lag_6h = 30 →
      ∃ s', runState model cal 1 s = .ok s' ∧
        s'.pm25_lag_1h = 5 ∧ s'.pm25_lag_3h = 10 ∧ s'.pm25_lag_6h = 20) := by
  constructor
  · intro cal s pred
    exact ⟨rfl, rfl, rfl⟩
  · intro model cal s hmodel h1 h3 h6
    refine ⟨applyStep cal s 5, ?_, rfl, ?_, ?_⟩
    · simp only [runState, hmodel (dropCols s)]
    · show s.pm25_lag_1h = 10
      exact h1
    · show s.pm25_lag_3h = 20
      exact h3

/-- Witness for C5: the concrete seed with lags 10 / 20 / 30 and the
constant model 5. -/
theorem C5_witness :
    ((applyStep cal0 seed0 7).pm25_lag_6h = seed0.pm25_lag_3h ∧
      (applyStep cal0 seed0 7).pm25_lag_3h = seed0.pm25_lag_1h ∧
      (applyStep cal0 seed0 7).pm25_lag_1h = 7) ∧
    (∃ s', runState model5 cal0 1 seed0 = .ok s' ∧
      s'.pm25_lag_1h = 5 ∧ s'.pm25_lag_3h = 10 ∧ s'.pm25_lag_6h = 20) :=
  ⟨C5_lag_propagation.1 cal0 seed0 7,
    C5_lag_propagation.2 model5 cal0 seed0 (fun _ => rfl) rfl rfl rfl⟩
